import Mathlib

/-!
Verification of the fetch-aggregate-cache engine of `github-runner-scaler`
(src/github-runner-scaler.go), shallowly embedded in Lean 4.

The embedding mirrors the Go source:
* `buildAPIURL` / `trimSuffixSlash` embed `buildAPIURL` and its use of
  `strings.TrimSuffix(baseURL, "/")` (which removes at most one occurrence
  of the suffix).
* `Repo` / `WorkflowRun` embed the two JSON record types.
* `GetWorkflowRuns` and the JSON decoding of the `workflow_runs` response
  body embed the client's decode step, with `encoding/json` semantics for
  missing and `null` fields (the zero value of the Go field is kept).
* `CountQueuedJobs` embeds the aggregator loop; upstream calls are
  abstracted as `Except`-valued inputs.  Like the Go function it returns a
  pair of an integer and an optional error.
* `getStep` / `runGets` embed the TTL-cache logic of `QueuedJobsHandler`
  (`time.Since(lastUpdateTime) < cacheTimeout` guarding recomputation),
  with the mutex modelled by processing callers as a serialized sequence
  of atomic `getStep` transitions; the boolean in the result records
  whether the recompute function was invoked.
-/

set_option maxRecDepth 20000

/-- Go `strings.HasPrefix(s, p)`, at the character-list level so that it
evaluates by kernel reduction. -/
def goStartsWith (s p : String) : Bool :=
  p.data.isPrefixOf s.data

/-- Go `strings.HasSuffix(s, p)`. -/
def goHasSuffix (s p : String) : Bool :=
  p.data.isSuffixOf s.data

/-- Go `strings.TrimSuffix(s, suffix)`: removes at most ONE trailing occurrence
of `suffix` (it does not loop). -/
def goTrimSuffix (s suffix : String) : String :=
  if goHasSuffix s suffix then
    String.mk (s.data.take (s.data.length - suffix.data.length))
  else s

/-- The Go source applies `strings.TrimSuffix(baseURL, "/")`. -/
def trimSuffixSlash (s : String) : String :=
  goTrimSuffix s "/"

/-- Embeds `buildAPIURL` (src/github-runner-scaler.go lines 33-42). -/
def buildAPIURL (baseURL endpoint : String) : String :=
  if goStartsWith baseURL "https://api.github.com" then
    trimSuffixSlash baseURL ++ "/" ++ endpoint
  else
    trimSuffixSlash baseURL ++ "/api/v3/" ++ endpoint

/-- Stripping ALL trailing slashes: the behavior claim C7 asserts of
`buildAPIURL`, stated from the spec's words for comparison with the
source's `strings.TrimSuffix(baseURL, "/")`. -/
def trimAllTrailingSlashes (s : String) : String :=
  String.mk ((s.data.reverse.dropWhile (fun c => c = '/')).reverse)

/-- Embeds the Go struct `Repo` (only `full_name` is consumed). -/
structure Repo where
  FullName : String
deriving Repr, DecidableEq

/-- Embeds the Go struct `WorkflowRun` (only `status` is consumed). -/
structure WorkflowRun where
  Status : String
deriving Repr, DecidableEq

/-- The inner loop of `CountQueuedJobs`: count runs whose status is exactly
`"queued"`. -/
def countQueuedInRuns (runs : List WorkflowRun) : Int :=
  runs.foldl (fun acc run => if run.Status = "queued" then acc + 1 else acc) 0

/-- The per-repository loop of `CountQueuedJobs`: fetch the runs of each
repository in order, abort with `(0, some e)` on the first error, otherwise
accumulate the queued counts. -/
def countLoop (runsOf : String → Except String (List WorkflowRun)) :
    List Repo → Int → Int × Option String
  | [], acc => (acc, none)
  | r :: rest, acc =>
    match runsOf r.FullName with
    | .error e => (0, some e)
    | .ok runs => countLoop runsOf rest (acc + countQueuedInRuns runs)

/-- Embeds `CountQueuedJobs` (src/github-runner-scaler.go lines 111-133).
The two upstream calls are abstracted: `repos` is the result of
`GetRepos`, and `runsOf name` is the result of `GetWorkflowRuns` for the
repository of that full name.  The Go function returns `(int, error)`;
here that is `Int × Option String`, where the error component is `none`
exactly when the Go error is `nil`. -/
def CountQueuedJobs (repos : Except String (List Repo))
    (runsOf : String → Except String (List WorkflowRun)) : Int × Option String :=
  match repos with
  | .error e => (0, some e)
  | .ok rs => countLoop runsOf rs 0

/-- A JSON value, used to embed the `encoding/json` decode step of
`GetWorkflowRuns`. -/
inductive Json where
  | null : Json
  | boolean (b : Bool) : Json
  | number (n : Int) : Json
  | str (s : String) : Json
  | arr (elems : List Json) : Json
  | obj (fields : List (String × Json)) : Json
deriving Repr

/-- Field lookup in a JSON object.  `encoding/json` keeps the LAST
occurrence of a duplicated key, so the reversed list is searched. -/
def lookupField (fields : List (String × Json)) (key : String) : Option Json :=
  (fields.reverse.find? (fun p => p.1 = key)).map (fun p => p.2)

/-- Decoding one element of `workflow_runs` into the Go struct
`WorkflowRun{Status string}`: a JSON object whose `status` field is a
string; a missing or `null` field keeps the zero value `""`; `null`
decodes to the zero struct; any other shape is a decode error. -/
def decodeWorkflowRun : Json → Except String WorkflowRun
  | .obj fields =>
    match lookupField fields "status" with
    | none => .ok ⟨""⟩
    | some .null => .ok ⟨""⟩
    | some (.str s) => .ok ⟨s⟩
    | some _ => .error "json: cannot unmarshal value into Go struct field WorkflowRun.status of type string"
  | .null => .ok ⟨""⟩
  | _ => .error "json: cannot unmarshal value into Go value of type main.WorkflowRun"

/-- Decoding the `workflow_runs` field into `[]WorkflowRun`: an array is
decoded elementwise, `null` keeps the zero value `nil` (the empty
sequence), and any other shape is a decode error. -/
def decodeRunsList : Json → Except String (List WorkflowRun)
  | .arr elems => elems.mapM decodeWorkflowRun
  | .null => .ok []
  | _ => .error "json: cannot unmarshal value into Go value of type []main.WorkflowRun"

/-- Decoding the 200 response body of `GetWorkflowRuns` into the anonymous
Go struct `{ WorkflowRuns []WorkflowRun `json:\x22workflow_runs\x22` }`:
a JSON object whose `workflow_runs` field is decoded by
`decodeRunsList`; a missing field keeps the zero value `nil` (the empty
sequence). -/
def decodeWorkflowRunsBody : Json → Except String (List WorkflowRun)
  | .obj fields =>
    match lookupField fields "workflow_runs" with
    | none => .ok []
    | some j => decodeRunsList j
  | .null => .ok []
  | _ => .error "json: cannot unmarshal value into Go struct"

/-- An upstream HTTP response as `GetWorkflowRuns` consumes it: a status
code and a (already parsed) JSON body. -/
structure HTTPResponse where
  statusCode : Nat
  body : Json
deriving Repr

/-- Embeds `GetWorkflowRuns` (src/github-runner-scaler.go lines 77-108)
from the point the upstream response is available: a transport error is
propagated, a non-200 status is an upstream-status error, and a 200 body
is decoded by `decodeWorkflowRunsBody`. -/
def GetWorkflowRuns (resp : Except String HTTPResponse) :
    Except String (List WorkflowRun) :=
  match resp with
  | .error e => .error e
  | .ok r =>
    if r.statusCode = 200 then decodeWorkflowRunsBody r.body
    else .error ("error fetching workflow runs: " ++ toString r.statusCode)

/-- One process-wide cache entry: `cachedJobs` and `lastUpdateTime`
(src/github-runner-scaler.go lines 25-30).  Time is an integer number of
clock ticks. -/
structure CacheState where
  cachedJobs : Int
  lastUpdateTime : Int
deriving Repr, DecidableEq

/-- One `get` call of the TTL cache, as performed by `QueuedJobsHandler`
under `cacheLock` (src/github-runner-scaler.go lines 145-176): if
`now - lastUpdateTime < ttl` (`time.Since(lastUpdateTime) < cacheTimeout`)
the stored count is returned and the recompute function (the
`CountQueuedJobs` call) is NOT invoked; otherwise it is invoked: on error
the state is unchanged and the error is returned, on success the new
count is stored, `lastUpdateTime` is set to `now`, and the new count is
returned.  The boolean records whether recompute was invoked. -/
def getStep (ttl : Int) (st : CacheState) (now : Int)
    (recompute : Except String Int) : CacheState × Except String Int × Bool :=
  if now - st.lastUpdateTime < ttl then
    (st, .ok st.cachedJobs, false)
  else
    match recompute with
    | .error e => (st, .error e, true)
    | .ok n => (⟨n, now⟩, .ok n, true)

/-- A serialized sequence of `get` calls: `cacheLock` is an exclusive lock
held for the whole of each call, so concurrent callers are processed one
after the other, each as one atomic `getStep`.  Each call carries its
arrival instant `now` and the outcome its recomputation would produce.
Returns the final state, the per-call results, and the total number of
recompute invocations. -/
def runGets (ttl : Int) (st : CacheState) :
    List (Int × Except String Int) → CacheState × List (Except String Int) × Nat
  | [] => (st, [], 0)
  | (now, rc) :: rest =>
    match getStep ttl st now rc with
    | (st1, res, invoked) =>
      match runGets ttl st1 rest with
      | (st2, results, n) => (st2, res :: results, (if invoked then 1 else 0) + n)

theorem trimSuffixSlash_of_endsWith (s : String) (h : goHasSuffix s "/" = true) :
    trimSuffixSlash s = String.mk (s.data.take (s.data.length - 1)) := by
  simp [trimSuffixSlash, goTrimSuffix, h]

theorem foldl_count_queued (runs : List WorkflowRun) (acc : Int) :
    runs.foldl (fun a run => if run.Status = "queued" then a + 1 else a) acc
      = acc + ((runs.filter (fun run => run.Status = "queued")).length : Int) := by
  induction runs generalizing acc with
  | nil => simp
  | cons run rest ih =>
    by_cases h : run.Status = "queued"
    · simp [List.foldl_cons, List.filter_cons, h, ih]
      ring
    · simp [List.foldl_cons, List.filter_cons, h, ih]

theorem countQueuedInRuns_eq_filter_length (runs : List WorkflowRun) :
    countQueuedInRuns runs
      = ((runs.filter (fun run => run.Status = "queued")).length : Int) := by
  simpa using foldl_count_queued runs 0

theorem countLoop_all_ok (runsF : String → List WorkflowRun) (rs : List Repo)
    (acc : Int) :
    countLoop (fun name => Except.ok (runsF name)) rs acc
      = (acc + ((rs.map
            (fun r => ((runsF r.FullName).filter
              (fun run => run.Status = "queued")).length)).sum : Int), none) := by
  induction rs generalizing acc with
  | nil => simp [countLoop]
  | cons r rest ih =>
    simp [countLoop, ih, countQueuedInRuns_eq_filter_length]
    ring

theorem countLoop_error_of_mem (runsOf : String → Except String (List WorkflowRun))
    (rs : List Repo) (acc : Int) (r : Repo) (e : String) (hmem : r ∈ rs)
    (herr : runsOf r.FullName = Except.error e) :
    ∃ e2, countLoop runsOf rs acc = (0, some e2) := by
  induction rs generalizing acc with
  | nil => cases hmem
  | cons hd rest ih =>
    rcases List.mem_cons.mp hmem with heq | htail
    · subst heq
      exact ⟨e, by simp [countLoop, herr]⟩
    · cases hcall : runsOf hd.FullName with
      | error e3 => exact ⟨e3, by simp [countLoop, hcall]⟩
      | ok runs =>
        simpa [countLoop, hcall] using ih _ htail

theorem countLoop_fst_eq_zero_of_snd_some
    (runsOf : String → Except String (List WorkflowRun)) (rs : List Repo)
    (acc : Int) (e : String) (h : (countLoop runsOf rs acc).2 = some e) :
    (countLoop runsOf rs acc).1 = 0 := by
  induction rs generalizing acc with
  | nil => simp [countLoop] at h
  | cons hd rest ih =>
    cases hcall : runsOf hd.FullName with
    | error e3 => simp [countLoop, hcall]
    | ok runs =>
      rw [countLoop, hcall] at h ⊢
      exact ih _ h

/-- C1: with every upstream call succeeding, `CountQueuedJobs` returns the
total number of workflow runs across all repositories whose status is
exactly `"queued"` (and no error); in particular for repositories `A`
with runs `[queued, completed]` and `B` with runs `[queued, queued]` it
returns 3, and for an organization with zero repositories it returns 0
without error. -/
theorem CountQueuedJobs_aggregation (runsF : String → List WorkflowRun)
    (rs : List Repo) :
    CountQueuedJobs (Except.ok rs) (fun name => Except.ok (runsF name))
      = (((rs.map (fun r => ((runsF r.FullName).filter
            (fun run => run.Status = "queued")).length)).sum : Int), none)
    ∧ CountQueuedJobs (Except.ok [⟨"org/A"⟩, ⟨"org/B"⟩])
        (fun name => Except.ok
          (if name = "org/A" then [⟨"queued"⟩, ⟨"completed"⟩]
           else [⟨"queued"⟩, ⟨"queued"⟩]))
      = (3, none)
    ∧ CountQueuedJobs (Except.ok [])
        (fun name => Except.ok (runsF name)) = (0, none) := by
  refine ⟨?_, by decide, by simp [CountQueuedJobs, countLoop]⟩
  simpa [CountQueuedJobs] using countLoop_all_ok runsF rs 0

/-- C5: if fetching the workflow runs of any repository in the list fails,
`CountQueuedJobs` returns an error with integer component 0 — no partial
sum is returned and no failing repository is skipped; likewise an error
from listing the repositories aborts the whole aggregation. -/
theorem CountQueuedJobs_abort_on_error (rs : List Repo)
    (runsOf : String → Except String (List WorkflowRun)) (r : Repo) (e : String)
    (hmem : r ∈ rs) (herr : runsOf r.FullName = Except.error e) :
    (∃ e2, CountQueuedJobs (Except.ok rs) runsOf = (0, some e2))
    ∧ ∀ e3 runsOf2, CountQueuedJobs (Except.error e3) runsOf2 = (0, some e3) := by
  constructor
  · simpa [CountQueuedJobs] using countLoop_error_of_mem runsOf rs 0 r e hmem herr
  · intro e3 runsOf2
    simp [CountQueuedJobs]

theorem CountQueuedJobs_abort_on_error_witness :
    (⟨"org/B"⟩ : Repo) ∈ [(⟨"org/A"⟩ : Repo), ⟨"org/B"⟩]
    ∧ (fun name => if name = "org/A"
        then Except.ok [(⟨"queued"⟩ : WorkflowRun)]
        else Except.error "boom") (Repo.FullName ⟨"org/B"⟩)
      = Except.error "boom"
    ∧ ((∃ e2, CountQueuedJobs (Except.ok [(⟨"org/A"⟩ : Repo), ⟨"org/B"⟩])
          (fun name => if name = "org/A"
            then Except.ok [(⟨"queued"⟩ : WorkflowRun)]
            else Except.error "boom") = (0, some e2))
      ∧ ∀ e3 runsOf2, CountQueuedJobs (Except.error e3) runsOf2 = (0, some e3)) :=
  ⟨by decide, by rfl,
    CountQueuedJobs_abort_on_error _ _ ⟨"org/B"⟩ "boom" (by decide) (by rfl)⟩

/-- C9: whenever `CountQueuedJobs` returns a non-nil error, the integer
component of its result is exactly 0, never a partial accumulation. -/
theorem CountQueuedJobs_zero_on_error (repos : Except String (List Repo))
    (runsOf : String → Except String (List WorkflowRun)) (e : String)
    (h : (CountQueuedJobs repos runsOf).2 = some e) :
    (CountQueuedJobs repos runsOf).1 = 0 := by
  cases repos with
  | error e3 => simp [CountQueuedJobs]
  | ok rs =>
    simp only [CountQueuedJobs] at h ⊢
    exact countLoop_fst_eq_zero_of_snd_some runsOf rs 0 e h

theorem CountQueuedJobs_zero_on_error_witness :
    (CountQueuedJobs (Except.ok [(⟨"org/A"⟩ : Repo)])
        (fun _ => Except.error "down")).2 = some "down"
    ∧ (CountQueuedJobs (Except.ok [(⟨"org/A"⟩ : Repo)])
        (fun _ => Except.error "down")).1 = 0 :=
  ⟨by decide, CountQueuedJobs_zero_on_error _ _ "down" (by decide)⟩

/-- C6: `buildAPIURL` is total on strings, and for every input it returns
`trimSuffixSlash baseURL ++ "/" ++ endpoint` when the base URL starts
with the public GitHub API origin (no `/api/v3` segment inserted), and
`trimSuffixSlash baseURL ++ "/api/v3/" ++ endpoint` otherwise; checked on
the two example URLs of the spec. -/
theorem buildAPIURL_cases (baseURL endpoint : String) :
    (goStartsWith baseURL "https://api.github.com" = true →
      buildAPIURL baseURL endpoint = trimSuffixSlash baseURL ++ "/" ++ endpoint)
    ∧ (goStartsWith baseURL "https://api.github.com" = false →
      buildAPIURL baseURL endpoint
        = trimSuffixSlash baseURL ++ "/api/v3/" ++ endpoint)
    ∧ buildAPIURL "https://api.github.com" "orgs/acme/repos"
        = "https://api.github.com/orgs/acme/repos"
    ∧ buildAPIURL "https://ghe.example.com" "orgs/acme/repos"
        = "https://ghe.example.com/api/v3/orgs/acme/repos" := by
  refine ⟨fun h => ?_, fun h => ?_, by decide, by decide⟩
  · simp [buildAPIURL, h]
  · simp [buildAPIURL, h]

theorem buildAPIURL_cases_witness :
    goStartsWith "https://ghe.example.com" "https://api.github.com" = false
    ∧ buildAPIURL "https://ghe.example.com" "orgs/acme/repos"
      = trimSuffixSlash "https://ghe.example.com" ++ "/api/v3/" ++ "orgs/acme/repos" :=
  ⟨by decide,
    (buildAPIURL_cases "https://ghe.example.com" "orgs/acme/repos").2.1 (by decide)⟩

/-- C7 counterexample: on a base URL carrying TWO trailing slashes,
`buildAPIURL` keeps one of them, so the result differs from the
all-slashes-stripped form and carries a doubled slash at the join
point. -/
theorem buildAPIURL_double_slash_counterexample :
    buildAPIURL "https://ghe.example.com//" "orgs/acme/repos"
      = "https://ghe.example.com//api/v3/orgs/acme/repos"
    ∧ buildAPIURL "https://ghe.example.com//" "orgs/acme/repos"
      ≠ trimAllTrailingSlashes "https://ghe.example.com//"
          ++ "/api/v3/" ++ "orgs/acme/repos" := by
  constructor
  · decide
  · decide

/-- C7 amended: `buildAPIURL` strips exactly ONE trailing slash (the Go
source applies `strings.TrimSuffix(baseURL, "/")` once), so for a base
URL ending in a slash the result is `(dropLast baseURL) ++ sep ++
endpoint`; the join point carries no doubled slash exactly when the
input carried exactly one trailing slash. -/
theorem buildAPIURL_strips_one_trailing_slash (b e : String)
    (h : goHasSuffix b "/" = true) :
    buildAPIURL b e = String.mk b.data.dropLast ++ "/" ++ e
    ∨ buildAPIURL b e = String.mk b.data.dropLast ++ "/api/v3/" ++ e := by
  have htrim : trimSuffixSlash b = String.mk b.data.dropLast := by
    simp [trimSuffixSlash, goTrimSuffix, h, List.dropLast_eq_take]
  unfold buildAPIURL
  by_cases hp : goStartsWith b "https://api.github.com" = true
  · exact Or.inl (by simp [hp, htrim])
  · exact Or.inr (by simp [hp, htrim])

theorem buildAPIURL_strips_one_trailing_slash_witness :
    goHasSuffix "https://ghe.example.com/" "/" = true
    ∧ (buildAPIURL "https://ghe.example.com/" "orgs/acme/repos"
        = String.mk "https://ghe.example.com/".data.dropLast ++ "/" ++ "orgs/acme/repos"
      ∨ buildAPIURL "https://ghe.example.com/" "orgs/acme/repos"
        = String.mk "https://ghe.example.com/".data.dropLast
            ++ "/api/v3/" ++ "orgs/acme/repos") :=
  ⟨by decide,
    buildAPIURL_strips_one_trailing_slash "https://ghe.example.com/"
      "orgs/acme/repos" (by decide)⟩

theorem runGets_all_fresh (ttl c t0 : Int) (calls : List (Int × Except String Int))
    (h : ∀ p ∈ calls, p.1 - t0 < ttl) :
    runGets ttl ⟨c, t0⟩ calls
      = (⟨c, t0⟩, calls.map (fun _ => Except.ok c), 0) := by
  induction calls with
  | nil => simp [runGets]
  | cons p rest ih =>
    obtain ⟨now, rc⟩ := p
    have h1 : now - t0 < ttl := h (now, rc) (List.mem_cons_self _ _)
    have h2 : ∀ q ∈ rest, q.1 - t0 < ttl :=
      fun q hq => h q (List.mem_cons_of_mem _ hq)
    simp [runGets, getStep, h1, ih h2]

/-- C3: every `get` call made while the entry is Fresh
(`now - computedAt < ttl`) returns the stored count without invoking
recompute; a whole sequence of calls falling within `ttl` of the last
successful recomputation leaves the entry unchanged, returns the same
stored count to every caller, and performs zero recompute invocations. -/
theorem cache_fresh_no_recompute (ttl c t0 : Int)
    (calls : List (Int × Except String Int))
    (h : ∀ p ∈ calls, p.1 - t0 < ttl) :
    runGets ttl ⟨c, t0⟩ calls
      = (⟨c, t0⟩, calls.map (fun _ => Except.ok c), 0) :=
  runGets_all_fresh ttl c t0 calls h

theorem cache_fresh_no_recompute_witness :
    (∀ p ∈ [((110 : Int), Except.error "down"), (159, Except.ok 9)],
      p.1 - 100 < (60 : Int))
    ∧ runGets 60 ⟨5, 100⟩ [((110 : Int), Except.error "down"), (159, Except.ok 9)]
      = (⟨5, 100⟩, [Except.ok 5, Except.ok 5], 0) :=
  ⟨by decide, cache_fresh_no_recompute 60 5 100 _ (by decide)⟩

/-- C4: every `get` call made while the entry is Stale
(`now - computedAt >= ttl`, boundary included) invokes recompute, and
when recomputation succeeds with count `n` the call stores `n`, sets
`computedAt` to `now`, and returns `n`. -/
theorem cache_stale_recomputes (ttl : Int) (st : CacheState) (now : Int)
    (rc : Except String Int) (h : ttl ≤ now - st.lastUpdateTime) :
    (getStep ttl st now rc).2.2 = true
    ∧ ∀ n, rc = Except.ok n →
        getStep ttl st now rc = (⟨n, now⟩, Except.ok n, true) := by
  have h2 : ¬ (now - st.lastUpdateTime < ttl) := not_lt.mpr h
  constructor
  · cases rc <;> simp [getStep, h2]
  · intro n hn
    subst hn
    simp [getStep, h2]

theorem cache_stale_recomputes_witness :
    (60 : Int) ≤ 60 - (⟨5, 0⟩ : CacheState).lastUpdateTime
    ∧ ((getStep 60 ⟨5, 0⟩ 60 (Except.ok 9)).2.2 = true
      ∧ ∀ n, (Except.ok 9 : Except String Int) = Except.ok n →
          getStep 60 (⟨5, 0⟩ : CacheState) 60 (Except.ok 9)
            = (⟨n, 60⟩, Except.ok n, true)) :=
  ⟨by decide, cache_stale_recomputes 60 ⟨5, 0⟩ 60 (Except.ok 9) (by decide)⟩

/-- C2: when recomputation fails during a Stale `get`, the cache entry is
returned unchanged — both `cachedJobs` and `lastUpdateTime` keep their
prior values — and the error is propagated; any later call (at a time
`now2 >= now`) on the resulting entry still sees Stale and invokes
recompute again. -/
theorem cache_failure_preserves_entry (ttl : Int) (st : CacheState)
    (now now2 : Int) (e : String)
    (h : ¬ (now - st.lastUpdateTime < ttl)) (hle : now ≤ now2) :
    getStep ttl st now (Except.error e) = (st, Except.error e, true)
    ∧ ∀ rc2,
        (getStep ttl (getStep ttl st now (Except.error e)).1 now2 rc2).2.2
          = true := by
  have hstep : getStep ttl st now (Except.error e) = (st, Except.error e, true) := by
    simp [getStep, h]
  refine ⟨hstep, ?_⟩
  intro rc2
  rw [hstep]
  have h3 : ¬ (now2 - st.lastUpdateTime < ttl) := by omega
  cases rc2 <;> simp [getStep, h3]

theorem cache_failure_preserves_entry_witness :
    ¬ ((60 : Int) - (⟨5, 0⟩ : CacheState).lastUpdateTime < 60)
    ∧ (60 : Int) ≤ 61
    ∧ (getStep 60 (⟨5, 0⟩ : CacheState) 60 (Except.error "boom")
        = (⟨5, 0⟩, Except.error "boom", true)
      ∧ ∀ rc2,
          (getStep 60 (getStep 60 (⟨5, 0⟩ : CacheState) 60
            (Except.error "boom")).1 61 rc2).2.2 = true) :=
  ⟨by decide, by decide,
    cache_failure_preserves_entry 60 ⟨5, 0⟩ 60 61 "boom" (by decide) (by decide)⟩

/-- C8: callers serialized by the exclusive cache lock and arriving at a
Stale entry collapse into a single recomputation: the first caller
recomputes (one invocation), and every later caller arriving within
`ttl` of that recomputation is served the recomputed count with no
further invocation — in total exactly one recompute invocation, and
every caller receives the recomputed count. -/
theorem cache_single_flight (ttl c t0 t1 n : Int) (ts : List Int)
    (h : ttl ≤ t1 - t0) (h2 : ∀ t ∈ ts, t - t1 < ttl) :
    (runGets ttl ⟨c, t0⟩ ((t1 :: ts).map (fun t => (t, Except.ok n)))).2.2 = 1
    ∧ (runGets ttl ⟨c, t0⟩ ((t1 :: ts).map (fun t => (t, Except.ok n)))).2.1
        = (t1 :: ts).map (fun _ => Except.ok n) := by
  have hstale : ¬ (t1 - t0 < ttl) := not_lt.mpr h
  have hfresh : ∀ p ∈ ts.map (fun t => (t, (Except.ok n : Except String Int))),
      p.1 - t1 < ttl := by
    intro p hp
    obtain ⟨t, ht, rfl⟩ := List.mem_map.mp hp
    exact h2 t ht
  constructor <;>
    simp [List.map_cons, runGets, getStep, hstale, Function.comp_def,
      List.map_const', runGets_all_fresh ttl n t1
        (ts.map (fun t => (t, (Except.ok n : Except String Int)))) hfresh]

theorem cache_single_flight_witness :
    (60 : Int) ≤ 60 - 0
    ∧ (∀ t ∈ [(60 : Int), 61, 119], t - 60 < (60 : Int))
    ∧ ((runGets 60 ⟨0, 0⟩ (((60 : Int) :: [(60 : Int), 61, 119]).map
          (fun t => (t, Except.ok 7)))).2.2 = 1
      ∧ (runGets 60 ⟨0, 0⟩ (((60 : Int) :: [(60 : Int), 61, 119]).map
          (fun t => (t, Except.ok 7)))).2.1
        = ((60 : Int) :: [(60 : Int), 61, 119]).map (fun _ => Except.ok 7)) :=
  ⟨by decide, by decide,
    cache_single_flight 60 0 0 60 7 [60, 61, 119] (by decide) (by decide)⟩

/-- C10: a 200 response whose body is a JSON object lacking the
`workflow_runs` field, or carrying it as `null`, decodes successfully to
the empty sequence of runs (not a decode error), and an empty sequence
contributes 0 queued runs to the aggregate. -/
theorem GetWorkflowRuns_missing_field_ok (fields : List (String × Json))
    (h : lookupField fields "workflow_runs" = none
       ∨ lookupField fields "workflow_runs" = some Json.null) :
    GetWorkflowRuns (Except.ok ⟨200, Json.obj fields⟩) = Except.ok []
    ∧ countQueuedInRuns [] = 0 := by
  refine ⟨?_, by decide⟩
  rcases h with h | h <;>
    simp [GetWorkflowRuns, decodeWorkflowRunsBody, h, decodeRunsList]

theorem GetWorkflowRuns_missing_field_ok_witness :
    (lookupField [("total_count", Json.number 0)] "workflow_runs" = none
      ∨ lookupField [("total_count", Json.number 0)] "workflow_runs"
          = some Json.null)
    ∧ (GetWorkflowRuns
        (Except.ok ⟨200, Json.obj [("total_count", Json.number 0)]⟩)
          = Except.ok []
      ∧ countQueuedInRuns [] = 0) :=
  ⟨Or.inl (by rfl), GetWorkflowRuns_missing_field_ok _ (Or.inl (by rfl))⟩
